import Mathlib

/-!
Verification of the trade-report aggregation core of `trading-aggregator-rs`
(`src/report.rs` and `src/trade.rs`).

Modelling conventions (shallow embedding):
* `rust_decimal::Decimal` values are modelled as exact rationals `ℚ`; the
  operations the code uses (`+`, `*`, `abs`, exact division by 3600,
  `round_dp` with the default midpoint-nearest-even strategy) agree with the
  corresponding exact rational operations on all inputs appearing here.
* timestamps (`DateTime<Tz>` / `DateTime<FixedOffset>`) are modelled as whole
  seconds `ℤ`; `(end - start).num_seconds()` becomes integer subtraction.
* `HashMap` is modelled as a function into `Option`, `None` meaning the key is
  absent; `entry(k).or_insert(0) += v` becomes the `bump` update below.
* a Rust panic (`.unwrap()` on a missing key) is modelled by `Option`-valued
  query functions, `none` meaning the query panics.
* `Result<T, E>` becomes `Except String T`; the trade stream of
  `new_from_stream` becomes the list of items the stream yields in order,
  each item an `Except String Trade`.
-/

namespace TradingReport

/-- `Area` enum from `trade.rs` (declaration order preserved). -/
inductive Area where
  | Amp | DK1 | DK2 | FR | GB | NL | NO2 | SE1 | SE3
deriving DecidableEq

/-- `CounterPart` enum from `trade.rs` (carried on trades, unused by aggregation). -/
inductive CounterPart where
  | Nordpool | Epex | Esett | Elexon | Rte | Semo | Tennet | Amprion
deriving DecidableEq

/-- `TradeSide` enum from `trade.rs`. -/
inductive TradeSide where
  | Buy | Sell
deriving DecidableEq

/-- `TradeType` enum from `trade.rs`. -/
inductive TradeType where
  | Intraday | Imbalance
  | AuctionGbDahH | AuctionGbDahHh | AuctionGbId1Hh | AuctionGbId2Hh
  | AuctionEurDahH | AuctionEurId1H | AuctionEurId2H | AuctionEurId3H
deriving DecidableEq

/-- `Market` enum from `trade.rs` (declaration order is the `Market::iter()` order). -/
inductive Market where
  | Auction | Intraday | Imbalance
deriving DecidableEq

/-- `impl From<TradeType> for Market` in `trade.rs`: the total classification of
trade types into markets. -/
def Market.fromTradeType : TradeType → Market
  | .Intraday => .Intraday
  | .Imbalance => .Imbalance
  | .AuctionGbDahH | .AuctionGbDahHh | .AuctionGbId1Hh | .AuctionGbId2Hh
  | .AuctionEurDahH | .AuctionEurId1H | .AuctionEurId2H | .AuctionEurId3H => .Auction

/-- `MarketSelection` enum from `trade.rs`. -/
inductive MarketSelection where
  | All
  | Specific (m : Market)
deriving DecidableEq

/-- `AreaSelection` enum from `trade.rs`. -/
inductive AreaSelection where
  | All
  | Specific (a : Area)
deriving DecidableEq

/-- `Trade` struct from `trade.rs`. -/
structure Trade where
  id : ℤ
  area : Area
  counter_part : CounterPart
  delivery_end : ℤ
  delivery_start : ℤ
  price : Option ℚ
  quantity_mwh : ℚ
  trade_side : TradeSide
  trade_type : TradeType
deriving DecidableEq

/-- `TradeForReport` struct: its declaration is referenced from `trade.rs`
exports; the field set is fixed by the `SELECT area, delivery_start,
delivery_end, price, quantity_mwh, trade_type` queries in `db.rs` and by the
field accesses of `ReportEntry::add_trade_for_report` in `report.rs`
(no `id`, no `counter_part`, and crucially no `trade_side`). -/
structure TradeForReport where
  area : Area
  delivery_end : ℤ
  delivery_start : ℤ
  price : Option ℚ
  quantity_mwh : ℚ
  trade_type : TradeType
deriving DecidableEq

/-- `Market::iter()` order used by the `MarketSelection::All` query branches. -/
def marketIter : List Market := [.Auction, .Intraday, .Imbalance]

/-- Fixed iteration order over areas used to model `HashMap::values()`
(the Rust iteration order is arbitrary; all uses sum commutatively). -/
def areaIter : List Area := [.Amp, .DK1, .DK2, .FR, .GB, .NL, .NO2, .SE1, .SE3]

/-- `contract_length` from `report.rs`: whole seconds of `end - start`, divided
exactly by 3600 as a decimal.  `Decimal::from_i64` always succeeds on the
values `chrono` can produce and `from_str_exact("3600.0")` always succeeds, so
the error branches of the source are unreachable and the result is `ok`. -/
def contract_length (delivery_start delivery_end : ℤ) : Except String ℚ :=
  .ok ((((delivery_end - delivery_start : ℤ) : ℚ)) / 3600)

/-- `ReportEntry` struct from `report.rs`; the two `HashMap`s are functions
into `Option ℚ` (`none` = key absent). -/
structure ReportEntry where
  area : Area
  mw : TradeSide × Market → Option ℚ
  cash_flow : TradeSide × Market → Option ℚ

/-- `ReportEntry::new`: both maps start empty. -/
def ReportEntry.new (area : Area) : ReportEntry :=
  { area := area, mw := fun _ => none, cash_flow := fun _ => none }

/-- `map.entry(k).or_insert(Decimal::ZERO) += v` on a `HashMap` modelled as a
function into `Option`. -/
def bump (f : TradeSide × Market → Option ℚ) (k : TradeSide × Market) (v : ℚ) :
    TradeSide × Market → Option ℚ :=
  fun x => if x = k then some ((f k).getD 0 + v) else f x

/-- The `(trade_side, market)` key `add_trade` touches. -/
def tradeKey (t : Trade) : TradeSide × Market :=
  (t.trade_side, Market.fromTradeType t.trade_type)

/-- `ReportEntry::add_trade` from `report.rs`. -/
def ReportEntry.add_trade (e : ReportEntry) (t : Trade) : Except String ReportEntry :=
  if t.area ≠ e.area then
    .error "Trade area has to match ReportEntry area"
  else
    match t.price with
    | none => .ok e
    | some trade_price =>
      match contract_length t.delivery_start t.delivery_end with
      | .error msg => .error msg
      | .ok cl =>
        let amt := |t.quantity_mwh| * cl
        .ok { e with
              mw := bump e.mw (tradeKey t) amt,
              cash_flow := bump e.cash_flow (tradeKey t) (amt * trade_price) }

/-- Side inference of `add_trade_for_report`: a negative quantity means Sell. -/
def forReportSide (t : TradeForReport) : TradeSide :=
  if t.quantity_mwh < 0 then .Sell else .Buy

/-- The `(side, market)` key `add_trade_for_report` touches. -/
def forReportKey (t : TradeForReport) : TradeSide × Market :=
  (forReportSide t, Market.fromTradeType t.trade_type)

/-- `ReportEntry::add_trade_for_report` from `report.rs`. -/
def ReportEntry.add_trade_for_report (e : ReportEntry) (t : TradeForReport) :
    Except String ReportEntry :=
  if t.area ≠ e.area then
    .error "Trade area has to match ReportEntry area"
  else
    match t.price with
    | none => .ok e
    | some trade_price =>
      match contract_length t.delivery_start t.delivery_end with
      | .error msg => .error msg
      | .ok cl =>
        let amt := |t.quantity_mwh| * cl
        .ok { e with
              mw := bump e.mw (forReportKey t) amt,
              cash_flow := bump e.cash_flow (forReportKey t) (amt * trade_price) }

/-- `ReportEntry::revenue`: the `Specific` branch is
`cash_flow.get(&(Sell, market)).unwrap()` — `none` models the panic on a
missing key; the `All` branch sums over `Market::iter()` with
`unwrap_or(&Decimal::ZERO)`. -/
def ReportEntry.revenue (e : ReportEntry) : MarketSelection → Option ℚ
  | .Specific m => e.cash_flow (.Sell, m)
  | .All => some ((marketIter.map fun m => (e.cash_flow (.Sell, m)).getD 0).sum)

/-- `ReportEntry::costs` (Buy side of `cash_flow`; `Specific` unwraps). -/
def ReportEntry.costs (e : ReportEntry) : MarketSelection → Option ℚ
  | .Specific m => e.cash_flow (.Buy, m)
  | .All => some ((marketIter.map fun m => (e.cash_flow (.Buy, m)).getD 0).sum)

/-- `ReportEntry::mw_sold` (Sell side of `mw`; `Specific` unwraps). -/
def ReportEntry.mw_sold (e : ReportEntry) : MarketSelection → Option ℚ
  | .Specific m => e.mw (.Sell, m)
  | .All => some ((marketIter.map fun m => (e.mw (.Sell, m)).getD 0).sum)

/-- `ReportEntry::mw_bought` (Buy side of `mw`; `Specific` unwraps). -/
def ReportEntry.mw_bought (e : ReportEntry) : MarketSelection → Option ℚ
  | .Specific m => e.mw (.Buy, m)
  | .All => some ((marketIter.map fun m => (e.mw (.Buy, m)).getD 0).sum)

/-- `ReportEntry::gross_profit`: `self.revenue(market) - self.costs(market)`;
a panic in either operand propagates. -/
def ReportEntry.gross_profit (e : ReportEntry) (m : MarketSelection) : Option ℚ :=
  match e.revenue m, e.costs m with
  | some x, some y => some (x - y)
  | _, _ => none

/-- Round a rational to an integer, ties to even — the
`MidpointNearestEven` strategy `rust_decimal`'s `round_dp` uses. -/
def roundHalfEven (q : ℚ) : ℤ :=
  let fl := ⌊q⌋
  let frac := q - (fl : ℚ)
  if frac < 1 / 2 then fl
  else if 1 / 2 < frac then fl + 1
  else if fl % 2 = 0 then fl else fl + 1

/-- `Decimal::round_dp(dp)`: banker's rounding at `dp` decimal places. -/
def roundDp (dp : ℕ) (q : ℚ) : ℚ :=
  (roundHalfEven (q * (10 : ℚ) ^ dp) : ℚ) / (10 : ℚ) ^ dp

/-- `Report` struct from `report.rs`; the `areas` `HashMap` is a function into
`Option ReportEntry`. -/
structure Report where
  _delivery_from : ℤ
  _delivery_to : ℤ
  areas : Area → Option ReportEntry

/-- The construction-time window check failure message of all constructors. -/
def windowErrMsg : String := "delivery_from has to be before delivery_to"

/-- Empty `areas` map every constructor starts from. -/
def emptyAreas : Area → Option ReportEntry := fun _ => none

/-- One iteration of the fold in `Report::new` / `new_from_stream`:
`areas.entry(area).or_insert(ReportEntry::new(area)).add_trade(trade)?`. -/
def stepTrade (acc : Area → Option ReportEntry) (t : Trade) :
    Except String (Area → Option ReportEntry) :=
  match ((acc t.area).getD (ReportEntry.new t.area)).add_trade t with
  | .error msg => .error msg
  | .ok en => .ok (fun a => if a = t.area then some en else acc a)

/-- One iteration of the fold in `Report::new_from_trade_for_report`. -/
def stepTradeFR (acc : Area → Option ReportEntry) (t : TradeForReport) :
    Except String (Area → Option ReportEntry) :=
  match ((acc t.area).getD (ReportEntry.new t.area)).add_trade_for_report t with
  | .error msg => .error msg
  | .ok en => .ok (fun a => if a = t.area then some en else acc a)

/-- The `for trade in trades.iter()` loop of `Report::new`, with `?`. -/
def foldTradesAux : (Area → Option ReportEntry) → List Trade →
    Except String (Area → Option ReportEntry)
  | acc, [] => .ok acc
  | acc, t :: rest =>
    match stepTrade acc t with
    | .error msg => .error msg
    | .ok acc2 => foldTradesAux acc2 rest

/-- The whole trade fold of `Report::new`, from the empty map. -/
def foldTrades (trades : List Trade) : Except String (Area → Option ReportEntry) :=
  foldTradesAux emptyAreas trades

/-- The loop of `Report::new_from_trade_for_report`, with `?`. -/
def foldTradesForReportAux : (Area → Option ReportEntry) → List TradeForReport →
    Except String (Area → Option ReportEntry)
  | acc, [] => .ok acc
  | acc, t :: rest =>
    match stepTradeFR acc t with
    | .error msg => .error msg
    | .ok acc2 => foldTradesForReportAux acc2 rest

/-- The whole fold of `Report::new_from_trade_for_report`. -/
def foldTradesForReport (trades : List TradeForReport) :
    Except String (Area → Option ReportEntry) :=
  foldTradesForReportAux emptyAreas trades

/-- The `while let Some(trade) = trades_iter.try_next().await?` loop of
`Report::new_from_stream` over the items the stream yields in order: an
`error` item aborts immediately with that error, an `ok` item is folded. -/
def foldStreamAux : (Area → Option ReportEntry) → List (Except String Trade) →
    Except String (Area → Option ReportEntry)
  | acc, [] => .ok acc
  | _, .error msg :: _ => .error msg
  | acc, .ok t :: rest =>
    match stepTrade acc t with
    | .error msg => .error msg
    | .ok acc2 => foldStreamAux acc2 rest

/-- The whole stream fold of `Report::new_from_stream`. -/
def foldStream (items : List (Except String Trade)) :
    Except String (Area → Option ReportEntry) :=
  foldStreamAux emptyAreas items

/-- `Report::new` from `report.rs`. -/
def Report.new (delivery_from delivery_to : ℤ) (trades : List Trade) :
    Except String Report :=
  if delivery_to < delivery_from then .error windowErrMsg
  else
    match foldTrades trades with
    | .error msg => .error msg
    | .ok ars =>
      .ok { _delivery_from := delivery_from, _delivery_to := delivery_to, areas := ars }

/-- `Report::new_from_trade_for_report` from `report.rs`. -/
def Report.new_from_trade_for_report (delivery_from delivery_to : ℤ)
    (trades : List TradeForReport) : Except String Report :=
  if delivery_to < delivery_from then .error windowErrMsg
  else
    match foldTradesForReport trades with
    | .error msg => .error msg
    | .ok ars =>
      .ok { _delivery_from := delivery_from, _delivery_to := delivery_to, areas := ars }

/-- `Report::new_from_stream` from `report.rs`, over the stream's item list. -/
def Report.new_from_stream (delivery_from delivery_to : ℤ)
    (items : List (Except String Trade)) : Except String Report :=
  if delivery_to < delivery_from then .error windowErrMsg
  else
    match foldStream items with
    | .error msg => .error msg
    | .ok ars =>
      .ok { _delivery_from := delivery_from, _delivery_to := delivery_to, areas := ars }

/-- The entries `self.areas.values()` iterates over, in the fixed area order. -/
def Report.entriesList (r : Report) : List ReportEntry :=
  areaIter.filterMap r.areas

/-- `values().map(|entry| aggregator(entry, market)).sum()` — a panic in any
aggregator call propagates (`none`). -/
def sumAgg (m : MarketSelection) (f : ReportEntry → MarketSelection → Option ℚ) :
    List ReportEntry → Option ℚ
  | [] => some 0
  | e :: es =>
    match f e m, sumAgg m f es with
    | some v, some s => some (v + s)
    | _, _ => none

/-- `Report::aggregate_metric` from `report.rs`: a specific absent area yields
`Decimal::ZERO` via `map_or`; otherwise the per-entry aggregator runs. -/
def Report.aggregate_metric (r : Report) (market : MarketSelection)
    (area_selection : AreaSelection)
    (aggregator : ReportEntry → MarketSelection → Option ℚ) : Option ℚ :=
  match area_selection with
  | .Specific a =>
    match r.areas a with
    | none => some 0
    | some e => aggregator e market
  | .All => sumAgg market aggregator r.entriesList

/-- `Report::revenue`: aggregate, then `round_dp(2)`. -/
def Report.revenue (r : Report) (market : MarketSelection) (area : AreaSelection) :
    Option ℚ :=
  (r.aggregate_metric market area ReportEntry.revenue).map (roundDp 2)

/-- `Report::costs`: aggregate, then `round_dp(2)`. -/
def Report.costs (r : Report) (market : MarketSelection) (area : AreaSelection) :
    Option ℚ :=
  (r.aggregate_metric market area ReportEntry.costs).map (roundDp 2)

/-- `Report::mw_sold`: aggregate, then `round_dp(1)`. -/
def Report.mw_sold (r : Report) (market : MarketSelection) (area : AreaSelection) :
    Option ℚ :=
  (r.aggregate_metric market area ReportEntry.mw_sold).map (roundDp 1)

/-- `Report::mw_bought`: aggregate, then `round_dp(1)`. -/
def Report.mw_bought (r : Report) (market : MarketSelection) (area : AreaSelection) :
    Option ℚ :=
  (r.aggregate_metric market area ReportEntry.mw_bought).map (roundDp 1)

/-- `Report::gross_profit`: aggregate the per-entry gross profit, then
`round_dp(2)`. -/
def Report.gross_profit (r : Report) (market : MarketSelection) (area : AreaSelection) :
    Option ℚ :=
  (r.aggregate_metric market area ReportEntry.gross_profit).map (roundDp 2)

/-! Pure companions of the fold used for the order-independence and stream
proofs: the fold of `Report::new` never fails (trades are routed to the entry
of their own area, so the area check passes, and `contract_length` is total),
so it equals a pure `List.foldl`. -/

/-- The successful path of `add_trade` (taken whenever the trade's area matches
the entry's): a no-op without a price, otherwise the two `bump`s. -/
def addTradeOk (e : ReportEntry) (t : Trade) : ReportEntry :=
  match t.price with
  | none => e
  | some trade_price =>
    let amt := |t.quantity_mwh| * (((t.delivery_end - t.delivery_start : ℤ) : ℚ) / 3600)
    { e with
      mw := bump e.mw (tradeKey t) amt,
      cash_flow := bump e.cash_flow (tradeKey t) (amt * trade_price) }

/-- The pure version of `stepTrade`. -/
def stepP (acc : Area → Option ReportEntry) (t : Trade) : Area → Option ReportEntry :=
  fun a =>
    if a = t.area then some (addTradeOk ((acc t.area).getD (ReportEntry.new t.area)) t)
    else acc a

/-- Well-formedness of an `areas` map: every stored entry carries its own key
as its `area` field.  Holds for the empty map and is preserved by every fold
step, and it is what makes the area check of `add_trade` pass inside the
constructors. -/
def areasWF (acc : Area → Option ReportEntry) : Prop :=
  ∀ a e, acc a = some e → e.area = a

/-- Every value of an entry's `mw` map is nonnegative. -/
def EntryNonneg (e : ReportEntry) : Prop :=
  ∀ k v, e.mw k = some v → 0 ≤ v

/-- Every entry of an `areas` map has a nonnegative `mw` map. -/
def AreasNonneg (acc : Area → Option ReportEntry) : Prop :=
  ∀ a e, acc a = some e → EntryNonneg e

/-! Concrete sample inputs used by the counterexample and witness theorems. -/

/-- A single priced Buy trade: 10 MWh intraday at 50 over one hour in `Amp`. -/
def tradeBuy : Trade :=
  { id := 1, area := .Amp, counter_part := .Nordpool,
    delivery_end := 3600, delivery_start := 0,
    price := some 50, quantity_mwh := 10,
    trade_side := .Buy, trade_type := .Intraday }

/-- A one-hour Sell of 1 MWh at price 0.006 in `Amp`. -/
def tradeSellSmall : Trade :=
  { id := 2, area := .Amp, counter_part := .Nordpool,
    delivery_end := 3600, delivery_start := 0,
    price := some (3 / 500), quantity_mwh := 1,
    trade_side := .Sell, trade_type := .Intraday }

/-- A one-hour Buy of 1 MWh at price 0.001 in `Amp`. -/
def tradeBuySmall : Trade :=
  { id := 3, area := .Amp, counter_part := .Nordpool,
    delivery_end := 3600, delivery_start := 0,
    price := some (1 / 1000), quantity_mwh := 1,
    trade_side := .Buy, trade_type := .Intraday }

/-- An unpriced trade in `Amp`. -/
def tradeNoPrice : Trade :=
  { id := 4, area := .Amp, counter_part := .Epex,
    delivery_end := 7200, delivery_start := 0,
    price := none, quantity_mwh := 7,
    trade_side := .Sell, trade_type := .Imbalance }

/-- The entry produced by folding `tradeBuy` into a fresh `Amp` entry. -/
def entryBuySample : ReportEntry := addTradeOk (ReportEntry.new .Amp) tradeBuy

/-! Helper lemmas. -/

theorem roundDp_zero (dp : ℕ) : roundDp dp 0 = 0 := by
  have h : roundHalfEven 0 = 0 := by norm_num [roundHalfEven]
  simp [roundDp, h]

theorem add_trade_eq_ok (e : ReportEntry) (t : Trade) (h : t.area = e.area) :
    e.add_trade t = .ok (addTradeOk e t) := by
  unfold ReportEntry.add_trade addTradeOk
  rw [if_neg (by simp [h])]
  cases t.price <;> simp [contract_length]

theorem addTradeOk_area (e : ReportEntry) (t : Trade) : (addTradeOk e t).area = e.area := by
  unfold addTradeOk
  cases t.price <;> rfl

theorem stepP_wf {acc : Area → Option ReportEntry} (h : areasWF acc) (t : Trade) :
    areasWF (stepP acc t) := by
  intro a e he
  unfold stepP at he
  by_cases ha : a = t.area
  · rw [if_pos ha] at he
    cases he
    rw [addTradeOk_area]
    cases hacc : acc t.area with
    | none => simp [hacc, ReportEntry.new, ha]
    | some e0 => simpa [hacc, ha] using h _ _ hacc
  · rw [if_neg ha] at he
    exact h _ _ he

theorem stepTrade_eq_stepP {acc : Area → Option ReportEntry} (h : areasWF acc) (t : Trade) :
    stepTrade acc t = .ok (stepP acc t) := by
  have harea : t.area = ((acc t.area).getD (ReportEntry.new t.area)).area := by
    cases hacc : acc t.area with
    | none => simp [hacc, ReportEntry.new]
    | some e0 => simp [hacc, h _ _ hacc]
  unfold stepTrade stepP
  rw [add_trade_eq_ok _ _ harea]

theorem foldTradesAux_eq_foldl (l : List Trade) :
    ∀ acc, areasWF acc → foldTradesAux acc l = .ok (l.foldl stepP acc) := by
  induction l with
  | nil => intro acc _; rfl
  | cons t rest ih =>
    intro acc hacc
    rw [foldTradesAux, stepTrade_eq_stepP hacc t]
    exact ih _ (stepP_wf hacc t)

theorem emptyAreas_wf : areasWF emptyAreas := by
  intro a e he
  simp [emptyAreas] at he

theorem foldTrades_eq_foldl (l : List Trade) :
    foldTrades l = .ok (l.foldl stepP emptyAreas) :=
  foldTradesAux_eq_foldl l emptyAreas emptyAreas_wf

theorem bump_comm (f : TradeSide × Market → Option ℚ) (k1 k2 : TradeSide × Market)
    (v1 v2 : ℚ) : bump (bump f k1 v1) k2 v2 = bump (bump f k2 v2) k1 v1 := by
  funext x
  by_cases h12 : k1 = k2
  · subst h12
    by_cases hx : x = k1
    · simp only [bump, if_pos hx, if_pos rfl, if_true, Option.getD_some]
      rw [add_right_comm]
    · simp only [bump, if_neg hx]
  · by_cases hx1 : x = k1 <;> by_cases hx2 : x = k2
    · exact absurd (hx1.symm.trans hx2) h12
    · simp only [bump, if_pos hx1, if_neg hx2, if_neg h12, if_neg (Ne.symm h12),
        Option.getD_some]
    · simp only [bump, if_pos hx2, if_neg hx1, if_neg h12, if_neg (Ne.symm h12),
        Option.getD_some]
    · simp only [bump, if_neg hx1, if_neg hx2]

theorem addTradeOk_comm (e : ReportEntry) (t1 t2 : Trade) :
    addTradeOk (addTradeOk e t1) t2 = addTradeOk (addTradeOk e t2) t1 := by
  unfold addTradeOk
  cases t1.price <;> cases t2.price <;> simp [bump_comm]

theorem stepP_comm (acc : Area → Option ReportEntry) (t1 t2 : Trade) :
    stepP (stepP acc t1) t2 = stepP (stepP acc t2) t1 := by
  by_cases h12 : t1.area = t2.area
  · funext a
    by_cases ha : a = t2.area
    · simp only [stepP, h12, if_pos ha, if_pos rfl, if_true, Option.getD_some]
      rw [addTradeOk_comm]
    · simp only [stepP, h12, if_neg ha]
  · funext a
    by_cases ha1 : a = t1.area <;> by_cases ha2 : a = t2.area
    · exact absurd (ha1.symm.trans ha2) h12
    · simp only [stepP, if_pos ha1, if_neg ha2, if_neg h12, if_neg (Ne.symm h12)]
    · simp only [stepP, if_pos ha2, if_neg ha1, if_neg h12, if_neg (Ne.symm h12)]
    · simp only [stepP, if_neg ha1, if_neg ha2]

theorem foldl_eq_of_perm {α β : Type} (f : β → α → β)
    (hf : ∀ s a b, f (f s a) b = f (f s b) a) {l l2 : List α} (h : l.Perm l2) :
    ∀ s, l.foldl f s = l2.foldl f s := by
  induction h with
  | nil => intro s; rfl
  | cons x _ ih => intro s; simpa using ih (f s x)
  | swap x y l => intro s; simp [List.foldl_cons, hf]
  | trans _ _ ih1 ih2 => intro s; exact (ih1 s).trans (ih2 s)

theorem sumAgg_gross (es : List ReportEntry) (m : MarketSelection) :
    ∀ x y, sumAgg m ReportEntry.revenue es = some x →
      sumAgg m ReportEntry.costs es = some y →
      sumAgg m ReportEntry.gross_profit es = some (x - y) := by
  induction es with
  | nil =>
    intro x y hx hy
    simp only [sumAgg] at hx hy ⊢
    cases hx; cases hy
    norm_num
  | cons e es ih =>
    intro x y hx hy
    simp only [sumAgg] at hx hy ⊢
    cases hrv : e.revenue m with
    | none => rw [hrv] at hx; cases hx
    | some vx =>
      cases hrs : sumAgg m ReportEntry.revenue es with
      | none => rw [hrv, hrs] at hx; cases hx
      | some sx =>
        cases hcv : e.costs m with
        | none => rw [hcv] at hy; cases hy
        | some vy =>
          cases hcs : sumAgg m ReportEntry.costs es with
          | none => rw [hcv, hcs] at hy; cases hy
          | some sy =>
            rw [hrv, hrs] at hx
            rw [hcv, hcs] at hy
            cases hx; cases hy
            rw [ih sx sy hrs hcs]
            have hg : e.gross_profit m = some (vx - vy) := by
              unfold ReportEntry.gross_profit
              rw [hrv, hcv]
            rw [hg]
            ring_nf

theorem foldStreamAux_map_ok (l : List Trade) :
    ∀ acc, foldStreamAux acc (l.map Except.ok) = foldTradesAux acc l := by
  induction l with
  | nil => intro acc; rfl
  | cons t rest ih =>
    intro acc
    simp only [List.map_cons, foldStreamAux, foldTradesAux]
    cases h : stepTrade acc t with
    | error msg => rfl
    | ok acc2 => exact ih acc2

theorem foldStreamAux_first_error (e : String) (rest : List (Except String Trade)) :
    ∀ (pre : List (Except String Trade)) acc, areasWF acc →
      (∀ x ∈ pre, ∃ tr, x = Except.ok tr) →
      foldStreamAux acc (pre ++ Except.error e :: rest) = .error e := by
  intro pre
  induction pre with
  | nil => intro acc _ _; rfl
  | cons x pre ih =>
    intro acc hwf hok
    obtain ⟨tr, rfl⟩ := hok x (by simp)
    simp only [List.cons_append, foldStreamAux]
    rw [stepTrade_eq_stepP hwf tr]
    exact ih _ (stepP_wf hwf tr) (fun y hy => hok y (by simp [hy]))

theorem emptyAreas_nonneg : AreasNonneg emptyAreas := by
  intro a e he
  simp [emptyAreas] at he

theorem entryNew_nonneg (a : Area) : EntryNonneg (ReportEntry.new a) := by
  intro k v hv
  simp [ReportEntry.new] at hv

theorem addTradeOk_nonneg (e : ReportEntry) (t : Trade)
    (hse : t.delivery_start ≤ t.delivery_end) (he : EntryNonneg e) :
    EntryNonneg (addTradeOk e t) := by
  unfold addTradeOk
  cases hp : t.price with
  | none => exact he
  | some p =>
    intro k v hv
    simp only [bump] at hv
    by_cases hk : k = tradeKey t
    · rw [if_pos hk] at hv
      injection hv with hv
      have h1 : (0 : ℚ) ≤ (e.mw (tradeKey t)).getD 0 := by
        cases hm : e.mw (tradeKey t) with
        | none => simp
        | some w => simpa using he _ _ hm
      have h2 : (0 : ℚ) ≤
          |t.quantity_mwh| * (((t.delivery_end - t.delivery_start : ℤ) : ℚ) / 3600) := by
        apply mul_nonneg (abs_nonneg _)
        apply div_nonneg _ (by norm_num)
        exact_mod_cast sub_nonneg.mpr hse
      rw [← hv]
      exact add_nonneg h1 h2
    · rw [if_neg hk] at hv
      exact he _ _ hv

theorem add_trade_nonneg (e : ReportEntry) (t : Trade) (e2 : ReportEntry)
    (hse : t.delivery_start ≤ t.delivery_end) (he : EntryNonneg e)
    (hok : e.add_trade t = .ok e2) : EntryNonneg e2 := by
  by_cases ha : t.area = e.area
  · rw [add_trade_eq_ok e t ha] at hok
    injection hok with h
    subst h
    exact addTradeOk_nonneg e t hse he
  · unfold ReportEntry.add_trade at hok
    rw [if_pos ha] at hok
    exact Except.noConfusion hok

theorem add_trade_for_report_nonneg (e : ReportEntry) (t : TradeForReport)
    (e2 : ReportEntry) (hse : t.delivery_start ≤ t.delivery_end) (he : EntryNonneg e)
    (hok : e.add_trade_for_report t = .ok e2) : EntryNonneg e2 := by
  unfold ReportEntry.add_trade_for_report at hok
  by_cases ha : t.area ≠ e.area
  · rw [if_pos ha] at hok
    exact Except.noConfusion hok
  · rw [if_neg ha] at hok
    cases hp : t.price with
    | none =>
      rw [hp] at hok
      injection hok with h
      subst h
      exact he
    | some p =>
      rw [hp] at hok
      simp only [contract_length] at hok
      injection hok with h
      subst h
      intro k v hv
      simp only [bump] at hv
      by_cases hk : k = forReportKey t
      · rw [if_pos hk] at hv
        injection hv with hv
        have h1 : (0 : ℚ) ≤ (e.mw (forReportKey t)).getD 0 := by
          cases hm : e.mw (forReportKey t) with
          | none => simp
          | some w => simpa using he _ _ hm
        have h2 : (0 : ℚ) ≤
            |t.quantity_mwh| * (((t.delivery_end - t.delivery_start : ℤ) : ℚ) / 3600) := by
          apply mul_nonneg (abs_nonneg _)
          apply div_nonneg _ (by norm_num)
          exact_mod_cast sub_nonneg.mpr hse
        rw [← hv]
        exact add_nonneg h1 h2
      · rw [if_neg hk] at hv
        exact he _ _ hv

theorem stepP_nonneg (acc : Area → Option ReportEntry) (t : Trade)
    (hse : t.delivery_start ≤ t.delivery_end) (h : AreasNonneg acc) :
    AreasNonneg (stepP acc t) := by
  intro a e he
  unfold stepP at he
  by_cases ha : a = t.area
  · rw [if_pos ha] at he
    injection he with he
    subst he
    apply addTradeOk_nonneg _ _ hse
    cases hacc : acc t.area with
    | none => exact entryNew_nonneg t.area
    | some e0 => simpa [hacc] using h _ _ hacc
  · rw [if_neg ha] at he
    exact h _ _ he

theorem stepTradeFR_nonneg (acc : Area → Option ReportEntry) (t : TradeForReport)
    (acc2 : Area → Option ReportEntry) (hse : t.delivery_start ≤ t.delivery_end)
    (hnn : AreasNonneg acc) (h : stepTradeFR acc t = .ok acc2) : AreasNonneg acc2 := by
  unfold stepTradeFR at h
  cases hadd : ((acc t.area).getD (ReportEntry.new t.area)).add_trade_for_report t with
  | error msg =>
    rw [hadd] at h
    exact Except.noConfusion h
  | ok en =>
    rw [hadd] at h
    injection h with h
    subst h
    intro a e he
    by_cases ha : a = t.area
    · simp only [if_pos ha] at he
      injection he with he
      subst he
      apply add_trade_for_report_nonneg _ t _ hse _ hadd
      cases hacc : acc t.area with
      | none => exact entryNew_nonneg t.area
      | some e0 => simpa [hacc] using hnn _ _ hacc
    · simp only [if_neg ha] at he
      exact hnn _ _ he

theorem foldTradesAux_nonneg (l : List Trade) :
    ∀ acc ars, areasWF acc → AreasNonneg acc →
      (∀ tr ∈ l, tr.delivery_start ≤ tr.delivery_end) →
      foldTradesAux acc l = .ok ars → AreasNonneg ars := by
  induction l with
  | nil =>
    intro acc ars _ hnn _ hok
    simp only [foldTradesAux] at hok
    injection hok with h
    subst h
    exact hnn
  | cons tr rest ih =>
    intro acc ars hwf hnn hval hok
    simp only [foldTradesAux] at hok
    rw [stepTrade_eq_stepP hwf tr] at hok
    exact ih _ _ (stepP_wf hwf tr) (stepP_nonneg _ _ (hval tr (by simp)) hnn)
      (fun x hx => hval x (by simp [hx])) hok

theorem foldFRAux_nonneg (l : List TradeForReport) :
    ∀ acc ars, AreasNonneg acc →
      (∀ tr ∈ l, tr.delivery_start ≤ tr.delivery_end) →
      foldTradesForReportAux acc l = .ok ars → AreasNonneg ars := by
  induction l with
  | nil =>
    intro acc ars hnn _ hok
    simp only [foldTradesForReportAux] at hok
    injection hok with h
    subst h
    exact hnn
  | cons tr rest ih =>
    intro acc ars hnn hval hok
    simp only [foldTradesForReportAux] at hok
    cases hstep : stepTradeFR acc tr with
    | error msg =>
      rw [hstep] at hok
      exact Except.noConfusion hok
    | ok acc2 =>
      rw [hstep] at hok
      exact ih _ _ (stepTradeFR_nonneg _ _ _ (hval tr (by simp)) hnn hstep)
        (fun x hx => hval x (by simp [hx])) hok

theorem foldStreamAux_nonneg (items : List (Except String Trade)) :
    ∀ acc ars, areasWF acc → AreasNonneg acc →
      (∀ x ∈ items, ∀ tr, x = Except.ok tr → tr.delivery_start ≤ tr.delivery_end) →
      foldStreamAux acc items = .ok ars → AreasNonneg ars := by
  induction items with
  | nil =>
    intro acc ars _ hnn _ hok
    simp only [foldStreamAux] at hok
    injection hok with h
    subst h
    exact hnn
  | cons x rest ih =>
    intro acc ars hwf hnn hval hok
    cases x with
    | error msg =>
      simp only [foldStreamAux] at hok
      exact Except.noConfusion hok
    | ok tr =>
      simp only [foldStreamAux] at hok
      rw [stepTrade_eq_stepP hwf tr] at hok
      exact ih _ _ (stepP_wf hwf tr)
        (stepP_nonneg _ _ (hval _ (by simp) tr rfl) hnn)
        (fun y hy tr2 h2 => hval y (by simp [hy]) tr2 h2) hok

/-! Claim theorems. -/

/-- C1: the claim says no query ever panics on a missing `(side, market)` key,
for any market selector.  The code refutes this for the `Specific` selector:
its branch calls `.unwrap()` on the map lookup.  Evaluating the code at the
failing input: the report built from the single Buy trade `tradeBuy`
constructs fine and answers `mw_bought(Specific Intraday, Specific Amp)`
normally (the `(Buy, Intraday)` key is present), but
`revenue(Specific Intraday, Specific Amp)` looks up the absent
`(Sell, Intraday)` key and panics (modelled as `none`) instead of returning
zero. -/
theorem c1_specific_market_panics_on_missing_key :
    ((Report.new 0 3600 [tradeBuy]).toOption.map fun r =>
      (r.revenue (MarketSelection.Specific .Intraday) (AreaSelection.Specific .Amp),
       r.mw_bought (MarketSelection.Specific .Intraday) (AreaSelection.Specific .Amp)))
      = some (none, some 10) := by
  have hfold : foldTrades [tradeBuy] = .ok (stepP emptyAreas tradeBuy) :=
    foldTrades_eq_foldl _
  simp only [Report.new, hfold]
  norm_num [Report.revenue, Report.mw_bought, Report.aggregate_metric, stepP,
    emptyAreas, addTradeOk, tradeBuy, tradeKey, Market.fromTradeType,
    ReportEntry.new, ReportEntry.revenue, ReportEntry.mw_bought, bump,
    Prod.mk.injEq, Except.toOption,
    show (TradeSide.Sell = TradeSide.Buy) = False from eq_false (by decide),
    roundDp, roundHalfEven]

/-- C2 counterexample: with both `All` selectors, on the two trades
`tradeSellSmall` (sell 1 MWh at 0.006 for one hour) and `tradeBuySmall`
(buy 1 MWh at 0.001 for one hour), the public queries return
`gross_profit = 0.00` (0.005 rounds to even), `revenue = 0.01` and
`costs = 0.00`, and `0.00 ≠ 0.01 - 0.00`: the claimed identity over the
rounded public values is false. -/
theorem c2_counterexample_rounded_identity_fails :
    ((Report.new 0 3600 [tradeSellSmall, tradeBuySmall]).toOption.map fun r =>
      (r.gross_profit .All .All, r.revenue .All .All, r.costs .All .All))
      = some (some 0, some (1 / 100), some 0) ∧ (0 : ℚ) ≠ 1 / 100 - 0 := by
  constructor
  · have hfold : foldTrades [tradeSellSmall, tradeBuySmall]
        = .ok (stepP (stepP emptyAreas tradeSellSmall) tradeBuySmall) :=
      foldTrades_eq_foldl _
    simp only [Report.new, hfold]
    norm_num [Report.gross_profit, Report.revenue, Report.costs,
      Report.aggregate_metric, Report.entriesList, areaIter, stepP, emptyAreas,
      addTradeOk, tradeSellSmall, tradeBuySmall, tradeKey, Market.fromTradeType,
      ReportEntry.new, sumAgg, ReportEntry.gross_profit, ReportEntry.revenue,
      ReportEntry.costs, marketIter, bump, Prod.mk.injEq, Except.toOption,
      show (TradeSide.Sell = TradeSide.Buy) = False from eq_false (by decide),
      show (TradeSide.Buy = TradeSide.Sell) = False from eq_false (by decide),
      show (Market.Auction = Market.Intraday) = False from eq_false (by decide),
      show (Market.Imbalance = Market.Intraday) = False from eq_false (by decide),
      roundDp, roundHalfEven]
  · norm_num

/-- C2 (amended): `gross_profit(market, area)` equals the 2-dp rounding of the
UNROUNDED revenue aggregate minus the unrounded costs aggregate (rounding is
applied once, to the difference); the identity with the separately rounded
`revenue`/`costs` return values can be off by one cent. -/
theorem c2_gross_profit_is_rounded_raw_difference (r : Report) (m : MarketSelection)
    (a : AreaSelection) (x y : ℚ)
    (hx : r.aggregate_metric m a ReportEntry.revenue = some x)
    (hy : r.aggregate_metric m a ReportEntry.costs = some y) :
    r.gross_profit m a = some (roundDp 2 (x - y)) := by
  cases a with
  | Specific ar =>
    simp only [Report.gross_profit, Report.aggregate_metric] at hx hy ⊢
    cases har : r.areas ar with
    | none =>
      simp only [har, Option.some.injEq] at hx hy ⊢
      subst hx
      subst hy
      norm_num
    | some e =>
      simp only [har] at hx hy ⊢
      unfold ReportEntry.gross_profit
      rw [hx, hy]
      rfl
  | All =>
    simp only [Report.gross_profit, Report.aggregate_metric] at hx hy ⊢
    rw [sumAgg_gross _ _ _ _ hx hy]
    rfl

/-- C2 witness: instantiating the amended theorem on the empty report with the
`All/All` selectors. -/
theorem c2_gross_profit_witness :
    (Report.mk 0 0 emptyAreas).gross_profit .All .All = some (roundDp 2 (0 - 0)) :=
  c2_gross_profit_is_rounded_raw_difference (Report.mk 0 0 emptyAreas) .All .All 0 0
    rfl rfl

/-- C3: `Report::new` is order-independent — folding any permutation of the
trade list (with the same window) yields an identical `Report`, areas map,
`mw` and `cash_flow` totals included. -/
theorem c3_report_new_permutation_invariant (f t : ℤ) (l l2 : List Trade)
    (h : l.Perm l2) : Report.new f t l = Report.new f t l2 := by
  unfold Report.new
  by_cases hw : t < f
  · rw [if_pos hw, if_pos hw]
  · rw [if_neg hw, if_neg hw, foldTrades_eq_foldl, foldTrades_eq_foldl,
      foldl_eq_of_perm stepP stepP_comm h emptyAreas]

/-- C3 witness: swapping two concrete trades yields the same report. -/
theorem c3_permutation_witness :
    Report.new 0 3600 [tradeBuy, tradeSellSmall]
      = Report.new 0 3600 [tradeSellSmall, tradeBuy] :=
  c3_report_new_permutation_invariant 0 3600 _ _
    (List.Perm.swap tradeSellSmall tradeBuy [])

/-- C4: on a priced trade whose area matches, `add_trade` returns `Ok` and
increases exactly the `(side, classify(trade_type))` keys of `mw` and
`cash_flow` by `|quantity| * contract_length` and
`|quantity| * contract_length * price`, where `contract_length` is the whole
seconds of `delivery_end - delivery_start` divided exactly by 3600; every
other key of both maps is unchanged. -/
theorem c4_add_trade_priced_update (e : ReportEntry) (t : Trade) (p : ℚ)
    (ha : t.area = e.area) (hp : t.price = some p) :
    e.add_trade t = .ok (addTradeOk e t) ∧
    (addTradeOk e t).mw (tradeKey t)
      = some ((e.mw (tradeKey t)).getD 0
          + |t.quantity_mwh| * (((t.delivery_end - t.delivery_start : ℤ) : ℚ) / 3600)) ∧
    (addTradeOk e t).cash_flow (tradeKey t)
      = some ((e.cash_flow (tradeKey t)).getD 0
          + |t.quantity_mwh| * (((t.delivery_end - t.delivery_start : ℤ) : ℚ) / 3600) * p) ∧
    ∀ k, k ≠ tradeKey t →
      (addTradeOk e t).mw k = e.mw k ∧ (addTradeOk e t).cash_flow k = e.cash_flow k := by
  refine ⟨add_trade_eq_ok e t ha, ?_, ?_, ?_⟩
  · unfold addTradeOk
    rw [hp]
    simp [bump]
  · unfold addTradeOk
    rw [hp]
    simp [bump]
  · intro k hk
    unfold addTradeOk
    rw [hp]
    simp [bump, hk]

/-- C4 witness: the theorem applied to a fresh `Amp` entry and `tradeBuy`. -/
theorem c4_add_trade_witness :
    (ReportEntry.new .Amp).add_trade tradeBuy
      = .ok (addTradeOk (ReportEntry.new .Amp) tradeBuy) :=
  (c4_add_trade_priced_update (ReportEntry.new .Amp) tradeBuy 50 rfl rfl).1

/-- C5: querying an area absent from the report's areas map returns exactly
zero (never a panic) for all five metrics and every market selector. -/
theorem c5_absent_area_returns_zero (r : Report) (a : Area) (h : r.areas a = none)
    (m : MarketSelection) :
    r.revenue m (.Specific a) = some 0 ∧
    r.costs m (.Specific a) = some 0 ∧
    r.mw_sold m (.Specific a) = some 0 ∧
    r.mw_bought m (.Specific a) = some 0 ∧
    r.gross_profit m (.Specific a) = some 0 := by
  simp [Report.revenue, Report.costs, Report.mw_sold, Report.mw_bought,
    Report.gross_profit, Report.aggregate_metric, h, roundDp_zero]

/-- C5 witness: the empty report answers zero for `Amp`. -/
theorem c5_absent_area_witness :
    (Report.mk 0 0 emptyAreas).revenue .All (.Specific .Amp) = some 0 :=
  (c5_absent_area_returns_zero (Report.mk 0 0 emptyAreas) .Amp rfl .All).1

/-- C6: an unpriced trade with matching area is a successful no-op —
`add_trade` returns `Ok` with the entry completely unchanged, so the trade
contributes zero to every query under every selector. -/
theorem c6_unpriced_trade_is_noop (e : ReportEntry) (t : Trade)
    (ha : t.area = e.area) (hp : t.price = none) : e.add_trade t = .ok e := by
  unfold ReportEntry.add_trade
  rw [if_neg (by simp [ha]), hp]

/-- C6 witness: the unpriced sample trade leaves a fresh entry unchanged. -/
theorem c6_unpriced_witness :
    (ReportEntry.new .Amp).add_trade tradeNoPrice = .ok (ReportEntry.new .Amp) :=
  c6_unpriced_trade_is_noop (ReportEntry.new .Amp) tradeNoPrice rfl rfl

/-- C7: a trade whose area differs from the entry's is rejected with an error
before any mutation (the functional embedding returns only the error, so the
entry is untouched), regardless of price, type or quantity. -/
theorem c7_area_mismatch_rejected (e : ReportEntry) (t : Trade)
    (h : t.area ≠ e.area) :
    e.add_trade t = .error "Trade area has to match ReportEntry area" := by
  unfold ReportEntry.add_trade
  rw [if_pos h]

/-- C7 witness: folding the `Amp` trade into a `DK1` entry errors. -/
theorem c7_area_mismatch_witness :
    (ReportEntry.new .DK1).add_trade tradeBuy
      = .error "Trade area has to match ReportEntry area" :=
  c7_area_mismatch_rejected (ReportEntry.new .DK1) tradeBuy (by decide)

/-- C8: all three constructors fail with the window error whenever
`delivery_to < delivery_from`, for every trade input; with a valid window,
`Report::new` propagates any error of the trade fold, and each constructor
succeeds whenever its fold succeeds (including the equal-endpoints window). -/
theorem c8_construction_window_and_fold :
    (∀ f t (l : List Trade), t < f → Report.new f t l = .error windowErrMsg) ∧
    (∀ f t (l : List TradeForReport), t < f →
      Report.new_from_trade_for_report f t l = .error windowErrMsg) ∧
    (∀ f t (items : List (Except String Trade)), t < f →
      Report.new_from_stream f t items = .error windowErrMsg) ∧
    (∀ f t (l : List Trade) msg, f ≤ t → foldTrades l = .error msg →
      Report.new f t l = .error msg) ∧
    (∀ f t (l : List Trade) ars, f ≤ t → foldTrades l = .ok ars →
      Report.new f t l = .ok (Report.mk f t ars)) ∧
    (∀ f t (l : List TradeForReport) ars, f ≤ t → foldTradesForReport l = .ok ars →
      Report.new_from_trade_for_report f t l = .ok (Report.mk f t ars)) ∧
    (∀ f t (items : List (Except String Trade)) ars, f ≤ t → foldStream items = .ok ars →
      Report.new_from_stream f t items = .ok (Report.mk f t ars)) := by
  refine ⟨?_, ?_, ?_, ?_, ?_, ?_, ?_⟩
  · intro f t l h
    unfold Report.new
    rw [if_pos h]
  · intro f t l h
    unfold Report.new_from_trade_for_report
    rw [if_pos h]
  · intro f t items h
    unfold Report.new_from_stream
    rw [if_pos h]
  · intro f t l msg hf hfold
    unfold Report.new
    rw [if_neg (not_lt.mpr hf), hfold]
  · intro f t l ars hf hfold
    unfold Report.new
    rw [if_neg (not_lt.mpr hf), hfold]
  · intro f t l ars hf hfold
    unfold Report.new_from_trade_for_report
    rw [if_neg (not_lt.mpr hf), hfold]
  · intro f t items ars hf hfold
    unfold Report.new_from_stream
    rw [if_neg (not_lt.mpr hf), hfold]

/-- C8 witness: an inverted window is rejected. -/
theorem c8_window_witness : Report.new 1 0 [] = .error windowErrMsg :=
  c8_construction_window_and_fold.1 1 0 [] (by norm_num)

/-- C9: a stream that yields exactly the trades of a list, in order and with
no item errors, builds the same `Report` as the bulk constructor on that list
with the same window; if an item is an error, `new_from_stream` returns the
first such error and no report. -/
theorem c9_stream_equals_bulk :
    (∀ f t (trades : List Trade),
      Report.new_from_stream f t (trades.map Except.ok) = Report.new f t trades) ∧
    (∀ f t (pre rest : List (Except String Trade)) (e : String), f ≤ t →
      (∀ x ∈ pre, ∃ tr, x = Except.ok tr) →
      Report.new_from_stream f t (pre ++ Except.error e :: rest) = .error e) := by
  constructor
  · intro f t trades
    unfold Report.new_from_stream Report.new
    by_cases hw : t < f
    · rw [if_pos hw, if_pos hw]
    · rw [if_neg hw, if_neg hw,
        show foldStream (trades.map Except.ok) = foldTrades trades from
          foldStreamAux_map_ok trades emptyAreas]
  · intro f t pre rest e hf hok
    unfold Report.new_from_stream
    rw [if_neg (not_lt.mpr hf),
      show foldStream (pre ++ Except.error e :: rest) = .error e from
        foldStreamAux_first_error e rest pre emptyAreas emptyAreas_wf hok]

/-- C9 witness: a stream whose only item is an error surfaces that error. -/
theorem c9_stream_witness :
    Report.new_from_stream 0 3600 [Except.error "database failure"]
      = .error "database failure" :=
  c9_stream_equals_bulk.2 0 3600 [] [] "database failure" (by norm_num)
    (fun x hx => absurd hx (List.not_mem_nil x))

/-- C10: for reports built by any of the three constructors from trades with
`delivery_start ≤ delivery_end`, every value stored in every entry's `mw` map
is nonnegative, and a successful `add_trade` on such a trade preserves
nonnegativity (the stored volume is a magnitude — sign lives in the side
key). -/
theorem c10_mw_values_nonneg :
    (∀ (e : ReportEntry) (t : Trade) (e2 : ReportEntry),
      t.delivery_start ≤ t.delivery_end → EntryNonneg e →
      e.add_trade t = .ok e2 → EntryNonneg e2) ∧
    (∀ (f t : ℤ) (l : List Trade) (r : Report),
      (∀ tr ∈ l, tr.delivery_start ≤ tr.delivery_end) →
      Report.new f t l = .ok r → AreasNonneg r.areas) ∧
    (∀ (f t : ℤ) (l : List TradeForReport) (r : Report),
      (∀ tr ∈ l, tr.delivery_start ≤ tr.delivery_end) →
      Report.new_from_trade_for_report f t l = .ok r → AreasNonneg r.areas) ∧
    (∀ (f t : ℤ) (items : List (Except String Trade)) (r : Report),
      (∀ x ∈ items, ∀ tr, x = Except.ok tr → tr.delivery_start ≤ tr.delivery_end) →
      Report.new_from_stream f t items = .ok r → AreasNonneg r.areas) := by
  refine ⟨add_trade_nonneg, ?_, ?_, ?_⟩
  · intro f t l r hval hok
    unfold Report.new at hok
    by_cases hw : t < f
    · rw [if_pos hw] at hok
      exact Except.noConfusion hok
    · rw [if_neg hw] at hok
      cases hfold : foldTrades l with
      | error msg =>
        rw [hfold] at hok
        exact Except.noConfusion hok
      | ok ars =>
        rw [hfold] at hok
        injection hok with h
        subst h
        exact foldTradesAux_nonneg l emptyAreas ars emptyAreas_wf emptyAreas_nonneg
          hval hfold
  · intro f t l r hval hok
    unfold Report.new_from_trade_for_report at hok
    by_cases hw : t < f
    · rw [if_pos hw] at hok
      exact Except.noConfusion hok
    · rw [if_neg hw] at hok
      cases hfold : foldTradesForReport l with
      | error msg =>
        rw [hfold] at hok
        exact Except.noConfusion hok
      | ok ars =>
        rw [hfold] at hok
        injection hok with h
        subst h
        exact foldFRAux_nonneg l emptyAreas ars emptyAreas_nonneg hval hfold
  · intro f t items r hval hok
    unfold Report.new_from_stream at hok
    by_cases hw : t < f
    · rw [if_pos hw] at hok
      exact Except.noConfusion hok
    · rw [if_neg hw] at hok
      cases hfold : foldStream items with
      | error msg =>
        rw [hfold] at hok
        exact Except.noConfusion hok
      | ok ars =>
        rw [hfold] at hok
        injection hok with h
        subst h
        exact foldStreamAux_nonneg items emptyAreas ars emptyAreas_wf
          emptyAreas_nonneg hval hfold

/-- C10 witness: folding `tradeBuy` into a fresh entry keeps `mw` nonnegative. -/
theorem c10_nonneg_witness : EntryNonneg entryBuySample :=
  c10_mw_values_nonneg.1 (ReportEntry.new .Amp) tradeBuy entryBuySample
    (by norm_num [tradeBuy]) (entryNew_nonneg .Amp)
    (add_trade_eq_ok (ReportEntry.new .Amp) tradeBuy rfl)

end TradingReport
